import Mathlib

/-! # file-renamer: a shallow embedding of `file-renamer.c`

C strings are modelled as lists of characters (one `Char` per byte, the
terminating NUL left implicit). The directory tree is an oracle for
`opendir`/`readdir` and `stat`; `rename` is an oracle on an abstract world.
-/

namespace FileRenamer

/-- A C string: the characters before the terminating NUL. -/
abbrev CStr := List Char

/-- The terminating NUL byte. -/
def NUL : Char := Char.ofNat 0

def MAX_PATH_LEN : Nat := 4096

def MAX_FILES : Nat := 10000

/-- The libc function `tolower` in the "C" locale (the program never calls `setlocale`). -/
def tolower (c : Char) : Nat :=
  if 65 ≤ c.toNat ∧ c.toNat ≤ 90 then c.toNat + 32 else c.toNat

/-- The libc function `snprintf(buf, size, ...)`: the formatted text cut to `size - 1` characters. -/
def snprintf (size : Nat) (text : CStr) : CStr :=
  text.take (size - 1)

/-- The libc function `strrchr(s, c)`: offset of the last occurrence of `c` in `s`, if any. -/
def strrchr (c : Char) : CStr → Option Nat
  | [] => none
  | x :: xs =>
    match strrchr c xs with
    | some i => some (i + 1)
    | none => if x = c then some 0 else none

/-- The libc function `strlen`: number of characters before the first NUL of a buffer. -/
def strlen (buf : List Char) : Nat :=
  (buf.takeWhile (fun c => c != NUL)).length

/-- The cast `(int)base_len` of a `size_t` to a 32-bit `int`. -/
def int_cast (n : Nat) : Int :=
  if n % 2 ^ 32 < 2 ^ 31 then ((n % 2 ^ 32 : Nat) : Int) else ((n % 2 ^ 32 : Nat) : Int) - 2 ^ 32

/-- The conversion `%.*s` of `printf`: a negative precision counts as no precision. -/
def precision_string (prec : Int) (s : CStr) : CStr :=
  if prec < 0 then s else s.take prec.toNat

/-- Case-insensitive string comparison (`strcasecmp_custom`). -/
def strcasecmp_custom : CStr → CStr → Int
  | c1 :: s1, c2 :: s2 =>
    if tolower c1 ≠ tolower c2 then (tolower c1 : Int) - (tolower c2 : Int)
    else strcasecmp_custom s1 s2
  | [], s2 => (tolower NUL : Int) - (tolower (s2.headD NUL) : Int)
  | c1 :: _, [] => (tolower c1 : Int) - (tolower NUL : Int)

/-- Get file extension (`get_extension`): the text after the last dot, or `none` for NULL. -/
def get_extension (path : CStr) : Option CStr :=
  match strrchr '.' path with
  | some last_dot =>
    if last_dot ≠ 0 ∧ (path.drop (last_dot + 1)).headD NUL ≠ NUL then
      some (path.drop (last_dot + 1))
    else none
  | none => none

/-- Build new path with different extension (`build_new_path`). -/
def build_new_path (new_path_size : Nat) (old_path new_ext : CStr) : CStr :=
  match strrchr '.' old_path with
  | some base_len =>
    snprintf new_path_size (precision_string (int_cast base_len) old_path ++ '.' :: new_ext)
  | none => snprintf new_path_size (old_path ++ '.' :: new_ext)

/-- Remove leading dot from extension if present (`clean_extension`): `strncpy` of at most
`dest_size - 1` characters followed by the terminator. -/
def clean_extension (src : CStr) (dest_size : Nat) : CStr :=
  if src.headD NUL = '.' then (src.drop 1).take (dest_size - 1)
  else src.take (dest_size - 1)

/-! ## The directory scanner -/

/-- The file system as the scanner sees it: `opendir` followed by the `readdir` sequence of
`d_name`s (`none` when `opendir` returns NULL), and the two `stat` tests by path. -/
structure FS where
  opendir : CStr → Option (List CStr)
  is_regular_file : CStr → Bool
  is_directory : CStr → Bool

/-- The globals `files_to_rename`/`file_count`, and what the scan wrote to stderr. -/
structure Scan where
  files_to_rename : List CStr
  stderr : List CStr
deriving DecidableEq

/-- The global `file_count`. -/
def Scan.file_count (st : Scan) : Nat := st.files_to_rename.length

/-- Add file to the list (`add_file`); `strdup` is taken to succeed. -/
def add_file (st : Scan) (path : CStr) : Scan :=
  if st.file_count ≥ MAX_FILES then
    { st with stderr := st.stderr ++
        ["Warning: Maximum file limit (".toList ++ (toString MAX_FILES).toList ++ ") reached.\n".toList] }
  else
    { st with files_to_rename := st.files_to_rename ++ [path] }

/-- The text `snprintf(full_path, sizeof(full_path), "%s/%s", dir_path, entry->d_name)`. -/
def full_path (dir_path d_name : CStr) : CStr :=
  snprintf MAX_PATH_LEN (dir_path ++ '/' :: d_name)

/-- The body run for a regular file: `ext && strcasecmp_custom(ext, from_ext) == 0` adds it. -/
def match_file (from_ext path : CStr) (st : Scan) : Scan :=
  match get_extension path with
  | some ext => if strcasecmp_custom ext from_ext = 0 then add_file st path else st
  | none => st

/-- One turn of the `readdir` loop of `scan_directory_non_recursive`. -/
def scan_entry_non_recursive (fs : FS) (dir_path from_ext : CStr) (st : Scan) (d_name : CStr) :
    Scan :=
  if d_name = ".".toList ∨ d_name = "..".toList then st
  else if fs.is_regular_file (full_path dir_path d_name) then
    match_file from_ext (full_path dir_path d_name) st
  else st

/-- Scan directory non-recursively (`scan_directory_non_recursive`). -/
def scan_directory_non_recursive (fs : FS) (dir_path from_ext : CStr) (st : Scan) : Scan :=
  match fs.opendir dir_path with
  | none => st
  | some entries => entries.foldl (scan_entry_non_recursive fs dir_path from_ext) st

/-- The `readdir` loop of `scan_directory_recursive_impl`; `recurse` is the recursive call.
`none` stands for a walk that did not return. -/
def scan_entries_recursive (recurse : CStr → Scan → Option Scan) (fs : FS)
    (dir_path from_ext : CStr) : List CStr → Scan → Option Scan
  | [], st => some st
  | d_name :: rest, st =>
    if d_name = ".".toList ∨ d_name = "..".toList then
      scan_entries_recursive recurse fs dir_path from_ext rest st
    else if fs.is_regular_file (full_path dir_path d_name) then
      scan_entries_recursive recurse fs dir_path from_ext rest
        (match_file from_ext (full_path dir_path d_name) st)
    else if fs.is_directory (full_path dir_path d_name) then
      match recurse (full_path dir_path d_name) st with
      | some st1 => scan_entries_recursive recurse fs dir_path from_ext rest st1
      | none => none
    else scan_entries_recursive recurse fs dir_path from_ext rest st

/-- The function `scan_directory_recursive_impl`, with the call depth bounded by `fuel`. -/
def scan_directory_recursive_impl (fs : FS) (from_ext : CStr) : Nat → CStr → Scan → Option Scan
  | 0, _, _ => none
  | fuel + 1, dir_path, st =>
    match fs.opendir dir_path with
    | none => some st
    | some entries =>
      scan_entries_recursive (scan_directory_recursive_impl fs from_ext fuel) fs dir_path from_ext
        entries st

/-- Scan directory recursively (`scan_directory_recursive`). -/
def scan_directory_recursive (fs : FS) (from_ext : CStr) (fuel : Nat) (dir_path : CStr)
    (st : Scan) : Option Scan :=
  scan_directory_recursive_impl fs from_ext fuel dir_path st

/-! ## Command line -/

/-- The locals `path_str`, `from_ext_str`, `to_ext_str` of `main` (`none` for NULL) and the
globals `skip_confirmation`, `recursive`. -/
structure Args where
  path_str : Option CStr
  from_ext_str : Option CStr
  to_ext_str : Option CStr
  skip_confirmation : Bool
  recursive : Bool
deriving DecidableEq

/-- The values before the argument loop. -/
def Args.init : Args :=
  { path_str := none, from_ext_str := none, to_ext_str := none,
    skip_confirmation := false, recursive := false }

/-- The text `snprintf(msg, sizeof(msg), "Error: Unknown argument '%s'.", argv[i])`. -/
def unknown_argument_message (arg : CStr) : CStr :=
  snprintf 256 ("Error: Unknown argument \x27".toList ++ arg ++ "\x27.".toList)

/-- The argument loop of `main` over the tokens `argv[i..]`; an error carries the message handed
to `print_usage_and_exit`. -/
def parse_arguments : List CStr → Args → Except CStr Args
  | [], a => .ok a
  | arg :: rest, a =>
    if arg = "-h".toList ∨ arg = "--help".toList then .error []
    else if arg = "-p".toList ∨ arg = "--path".toList then
      match rest with
      | v :: rest1 => parse_arguments rest1 { a with path_str := some v }
      | [] => .error "Error: Flag -p or --path requires an argument.".toList
    else if arg = "-f".toList ∨ arg = "--from".toList then
      match rest with
      | v :: rest1 => parse_arguments rest1 { a with from_ext_str := some v }
      | [] => .error "Error: Flag -f or --from requires an argument.".toList
    else if arg = "-t".toList ∨ arg = "--to".toList then
      match rest with
      | v :: rest1 => parse_arguments rest1 { a with to_ext_str := some v }
      | [] => .error "Error: Flag -t or --to requires an argument.".toList
    else if arg = "-y".toList then parse_arguments rest { a with skip_confirmation := true }
    else if arg = "-r".toList ∨ arg = "--recursive".toList then
      parse_arguments rest { a with recursive := true }
    else .error (unknown_argument_message arg)

/-- The checked configuration after "Validate required arguments". -/
structure Config where
  path_str : CStr
  from_ext_str : CStr
  to_ext_str : CStr
  skip_confirmation : Bool
  recursive : Bool
deriving DecidableEq

/-- Validate required arguments: the three `if (!..._str)` tests, in order. -/
def validate_arguments (a : Args) : Except CStr Config :=
  match a.path_str with
  | none => .error "Error: Path (-p) must be provided.".toList
  | some p =>
    match a.from_ext_str with
    | none => .error "Error: \x27From\x27 extension (-f) must be provided.".toList
    | some f =>
      match a.to_ext_str with
      | none => .error "Error: \x27To\x27 extension (-t) must be provided.".toList
      | some t =>
        .ok { path_str := p, from_ext_str := f, to_ext_str := t,
              skip_confirmation := a.skip_confirmation, recursive := a.recursive }

/-- Argument loop followed by validation, on `argv[1..]`. -/
def parse_command_line (args : List CStr) : Except CStr Config :=
  match parse_arguments args Args.init with
  | .error msg => .error msg
  | .ok a => validate_arguments a

/-- What `print_usage_and_exit` writes to stderr. -/
def usage_output (message : CStr) : List CStr :=
  (if message ≠ [] then [message ++ "\n".toList] else []) ++
  [ "\nUsage:\n".toList,
    "  ./file-renamer -p <directory_path> -f <from_extension> -t <to_extension> [-y] [-r]\n".toList,
    "\nArguments:\n".toList,
    "  -p, --path <path>      : Sets the directory path to scan\n".toList,
    "  -f, --from <ext>       : Sets the extension to rename from\n".toList,
    "  -t, --to <ext>         : Sets the extension to rename to\n".toList,
    "  -y                     : Skips the confirmation prompt\n".toList,
    "  -r, --recursive        : Recursively scan subdirectories\n".toList,
    "  -h, --help             : Displays this help message\n".toList,
    "\nExample:\n".toList,
    "  ./file-renamer -p /home/user/documents -f cpp -t txt\n".toList,
    "  ./file-renamer -p /home/user/documents -f cpp -t txt -r\n".toList ]

/-! ## Confirmation, renaming and `main` -/

/-- The characters `fgets` stores: at most `n` of them, stopping after a newline. -/
def fgets_read : Nat → List Char → List Char
  | 0, _ => []
  | _, [] => []
  | n + 1, c :: rest => if c = Char.ofNat 10 then [c] else c :: fgets_read n rest

/-- The libc function `fgets(input, size, stdin)` on the bytes left on stdin: `none` for NULL
(nothing read before end of input). -/
def fgets (size : Nat) (stdin : List Char) : Option (List Char) :=
  if stdin = [] then none else some (fgets_read (size - 1) stdin)

/-- The confirmation test of `main` on the buffer `fgets` filled: `true` when the run goes on to
rename, `false` when it prints "Operation cancelled." and exits. -/
def check_confirmation (input : List Char) : Bool :=
  let len := strlen input
  let input1 :=
    if len > 0 ∧ input.getD (len - 1) NUL = Char.ofNat 10 then input.set (len - 1) NUL else input
  if len = 0 ∨ (len = 1 ∧ tolower (input1.getD 0 NUL) ≠ ('y').toNat) then false else true

/-- Ask for confirmation unless skipped: `true` when `main` goes on to the rename loop. -/
def confirmation_gate (skip_confirmation : Bool) (stdin : List Char) : Bool :=
  if skip_confirmation then true
  else
    match fgets 64 stdin with
    | none => false
    | some input => check_confirmation input

/-- State of the rename loop: the world `rename` acts on, the output so far, the counter
`file_renamed_count`, and the `rename` calls made so far (old path, new path, success). -/
structure RenameRun (σ : Type) where
  world : σ
  stdout : List CStr
  stderr : List CStr
  file_renamed_count : Nat
  calls : List (CStr × CStr × Bool)

/-- The rename loop of `main` over `files_to_rename[j..]`; `rename w old new` gives whether the
call returned 0 and the world after it. -/
def rename_files {σ : Type} (rename : σ → CStr → CStr → Bool × σ) (to_ext_clean : CStr) :
    List CStr → RenameRun σ → RenameRun σ
  | [], run => run
  | old_path :: rest, run =>
    let new_path := build_new_path MAX_PATH_LEN old_path to_ext_clean
    let r := rename run.world old_path new_path
    rename_files rename to_ext_clean rest
      { world := r.2,
        stdout := run.stdout ++
          ["Renaming: ".toList ++ old_path ++ " -> ".toList ++ new_path ++ "\n".toList],
        stderr :=
          if r.1 then run.stderr
          else run.stderr ++
            ["  -> Failed to rename file \x27".toList ++ old_path ++ "\x27\n".toList],
        file_renamed_count := if r.1 then run.file_renamed_count + 1 else run.file_renamed_count,
        calls := run.calls ++ [(old_path, new_path, r.1)] }

/-- Print summary. -/
def summary (file_renamed_count : Nat) : CStr :=
  if file_renamed_count = 0 then "No files were renamed.\n".toList
  else if file_renamed_count = 1 then "Done. Successfully renamed 1 file.\n".toList
  else "Done. Successfully renamed ".toList ++ (toString file_renamed_count).toList ++
    " files.\n".toList

/-- What a run of the program leaves behind. -/
structure Outcome (σ : Type) where
  exit_status : Nat
  stdout : List CStr
  stderr : List CStr
  calls : List (CStr × CStr × Bool)
  world : σ

/-- The part of `main` after the scan: listing, confirmation, rename loop, summary. -/
def main_after_scan {σ : Type} (rename : σ → CStr → CStr → Bool × σ) (skip_confirmation : Bool)
    (from_ext_clean to_ext_clean : CStr) (scan : Scan) (out : List CStr) (stdin : List Char)
    (w : σ) : Outcome σ :=
  if scan.file_count = 0 then
    { exit_status := 0,
      stdout := out ++ ["No files with extension \x27.".toList ++ from_ext_clean ++
        "\x27 found to rename.\n".toList],
      stderr := scan.stderr, calls := [], world := w }
  else
    let out1 := out ++ ["file found:\n".toList] ++
      scan.files_to_rename.map (fun f => "  ".toList ++ f ++ "\n".toList) ++
      ["Will change extensions from \x27.".toList ++ from_ext_clean ++ "\x27 to \x27.".toList ++
        to_ext_clean ++ "\x27\n".toList]
    let out2 :=
      if skip_confirmation then out1
      else out1 ++ ["Do you want to proceed with renaming? (y/N): ".toList]
    if confirmation_gate skip_confirmation stdin then
      let run := rename_files rename to_ext_clean scan.files_to_rename
        { world := w, stdout := out2 ++ ["---\n".toList], stderr := scan.stderr,
          file_renamed_count := 0, calls := [] }
      { exit_status := 0,
        stdout := run.stdout ++ ["---\n".toList, summary run.file_renamed_count],
        stderr := run.stderr, calls := run.calls, world := run.world }
    else
      { exit_status := 0, stdout := out2 ++ ["Operation cancelled.\n".toList],
        stderr := scan.stderr, calls := [], world := w }

/-- The function `main` on `argv`; `fuel` bounds the depth of the recursive walk and `none`
stands for a walk that did not return. -/
def main {σ : Type} (fs : FS) (rename : σ → CStr → CStr → Bool × σ) (fuel : Nat)
    (argv : List CStr) (stdin : List Char) (w : σ) : Option (Outcome σ) :=
  match parse_command_line (argv.drop 1) with
  | .error msg =>
    some { exit_status := 1, stdout := [], stderr := usage_output msg, calls := [], world := w }
  | .ok cfg =>
    let from_ext_clean := clean_extension cfg.from_ext_str 256
    let to_ext_clean := clean_extension cfg.to_ext_str 256
    if fs.is_directory cfg.path_str = false then
      some { exit_status := 1, stdout := [],
             stderr := ["Error: The provided path is not a valid directory: ".toList ++
               cfg.path_str ++ "\n".toList],
             calls := [], world := w }
    else
      let out := ["Scanning directory: ".toList ++ cfg.path_str ++ "\n".toList]
      let start : Scan := { files_to_rename := [], stderr := [] }
      let scanned :=
        if cfg.recursive then scan_directory_recursive fs from_ext_clean fuel cfg.path_str start
        else some (scan_directory_non_recursive fs cfg.path_str from_ext_clean start)
      match scanned with
      | none => none
      | some scan =>
        some (main_after_scan rename cfg.skip_confirmation from_ext_clean to_ext_clean scan out
          stdin w)

/-! ## Vocabulary for the command-line claims -/

def is_help_flag (t : CStr) : Bool := t = "-h".toList || t = "--help".toList

def is_path_flag (t : CStr) : Bool := t = "-p".toList || t = "--path".toList

def is_from_flag (t : CStr) : Bool := t = "-f".toList || t = "--from".toList

def is_to_flag (t : CStr) : Bool := t = "-t".toList || t = "--to".toList

def is_yes_flag (t : CStr) : Bool := t = "-y".toList

def is_recursive_flag (t : CStr) : Bool := t = "-r".toList || t = "--recursive".toList

/-- The flags that take a value: `-p`, `--path`, `-f`, `--from`, `-t`, `--to`. -/
def is_value_flag (t : CStr) : Bool := is_path_flag t || is_from_flag t || is_to_flag t

/-- The flags that stand alone: `-y`, `-r`, `--recursive`. -/
def is_switch (t : CStr) : Bool := is_yes_flag t || is_recursive_flag t

/-- The recognised flags. -/
def is_known_flag (t : CStr) : Bool := is_help_flag t || is_value_flag t || is_switch t

/-- A token list made only of complete options, read left to right: a value flag together with
the token after it (whatever that token is), or a switch. The token that follows such a list is
at a flag position. -/
def options_complete : List CStr → Bool
  | [] => true
  | [t] => is_switch t
  | t :: v :: rest =>
    if is_value_flag t then options_complete rest
    else if is_switch t then options_complete (v :: rest)
    else false

/-- The token `tok` stands at a flag position of `args`, after `pre` and before `rest`. -/
def FlagAt (args pre : List CStr) (tok : CStr) (rest : List CStr) : Prop :=
  args = pre ++ tok :: rest ∧ options_complete pre = true

/-- A flag of the kind `isf` occurs at a flag position of `args` with a token after it. -/
def Given (isf : CStr → Bool) (args : List CStr) : Prop :=
  ∃ pre f v rest, FlagAt args pre f (v :: rest) ∧ isf f = true

/-- The token `v` is the value of the last flag of the kind `isf` at a flag position. -/
def LastValue (isf : CStr → Bool) (args : List CStr) (v : CStr) : Prop :=
  ∃ pre f rest, FlagAt args pre f (v :: rest) ∧ isf f = true ∧ ¬ Given isf rest

/-- A flag of the kind `isf` occurs at a flag position of `args`. -/
def Present (isf : CStr → Bool) (args : List CStr) : Prop :=
  ∃ pre f rest, FlagAt args pre f rest ∧ isf f = true

/-- The message for a value flag that is the last token. -/
def requires_message (f : CStr) : CStr :=
  if is_path_flag f then "Error: Flag -p or --path requires an argument.".toList
  else if is_from_flag f then "Error: Flag -f or --from requires an argument.".toList
  else "Error: Flag -t or --to requires an argument.".toList

/-- The assignment the argument loop makes for the value flag `f` with value `v`. -/
def set_value (f v : CStr) (a : Args) : Args :=
  if is_path_flag f then { a with path_str := some v }
  else if is_from_flag f then { a with from_ext_str := some v }
  else { a with to_ext_str := some v }

/-- The assignment the argument loop makes for the switch `f`. -/
def set_switch (f : CStr) (a : Args) : Args :=
  if is_yes_flag f then { a with skip_confirmation := true } else { a with recursive := true }

/-! ## Vocabulary for the scan claims -/

/-- The world after `rename` has been called for each of `files`, in list order, each call
acting on the world the call before it left. -/
def world_after {σ : Type} (rename : σ → CStr → CStr → Bool × σ) (to_ext : CStr)
    (files : List CStr) (w : σ) : σ :=
  files.foldl (fun w1 f => (rename w1 f (build_new_path MAX_PATH_LEN f to_ext)).2) w

/-- The `rename` calls for `files` from the world `w`, each with the result `rename` gives. -/
def expected_calls {σ : Type} (rename : σ → CStr → CStr → Bool × σ) (to_ext : CStr) :
    List CStr → σ → List (CStr × CStr × Bool)
  | [], _ => []
  | f :: rest, w =>
    (f, build_new_path MAX_PATH_LEN f to_ext,
        (rename w f (build_new_path MAX_PATH_LEN f to_ext)).1) ::
      expected_calls rename to_ext rest (rename w f (build_new_path MAX_PATH_LEN f to_ext)).2

/-- The failure notice of the rename loop for the old path `f`. -/
def failure_notice (f : CStr) : CStr :=
  "  -> Failed to rename file \x27".toList ++ f ++ "\x27\n".toList

/-- A `rename` that fails on "b.c" only, on a world that records the calls it receives. -/
def rename_logging : List (CStr × CStr) → CStr → CStr → Bool × List (CStr × CStr) :=
  fun w old_path new_path => (decide (old_path ≠ "b.c".toList), w ++ [(old_path, new_path)])

/-! ## Sample inputs -/

/-- A `rename` that always succeeds, on a world with no state. -/
def rename_ok : Unit → CStr → CStr → Bool × Unit :=
  fun _ _ _ => (true, ())

/-- The empty scan state `main` starts from. -/
def Scan.start : Scan := { files_to_rename := [], stderr := [] }

/-- A directory "d" holding the one regular file "a.cpp". -/
def cpp_fs : FS :=
  { opendir := fun p =>
      if p = "d".toList then some [".".toList, "..".toList, "a.cpp".toList] else none,
    is_regular_file := fun p => decide (p = "d/a.cpp".toList),
    is_directory := fun p => decide (p = "d".toList ∨ p = "d/.".toList ∨ p = "d/..".toList) }

/-- A directory "d" holding the one regular file ".gitignore". -/
def dotfile_fs : FS :=
  { opendir := fun p =>
      if p = "d".toList then some [".".toList, "..".toList, ".gitignore".toList] else none,
    is_regular_file := fun p => decide (p = "d/.gitignore".toList),
    is_directory := fun p => decide (p = "d".toList ∨ p = "d/.".toList ∨ p = "d/..".toList) }

/-- A directory "r" with a subdirectory "sub" that `stat` reaches but `opendir` cannot read
(search permission without read permission); "r/sub/a.txt" is a regular file. -/
def locked_fs : FS :=
  { opendir := fun p =>
      if p = "r".toList then some [".".toList, "..".toList, "sub".toList] else none,
    is_regular_file := fun p => decide (p = "r/sub/a.txt".toList),
    is_directory := fun p =>
      decide (p = "r".toList ∨ p = "r/.".toList ∨ p = "r/..".toList ∨ p = "r/sub".toList) }

theorem tolower_NUL : tolower NUL = 0 := by decide

theorem toNat_ne_zero_of_ne_NUL {c : Char} (h : c ≠ NUL) : c.toNat ≠ 0 := by
  intro h0
  apply h
  have := Char.ofNat_toNat c
  rw [h0] at this
  exact this.symm

theorem tolower_ne_zero {c : Char} (h : c ≠ NUL) : tolower c ≠ 0 := by
  have := toNat_ne_zero_of_ne_NUL h
  unfold tolower
  split <;> omega

theorem strcasecmp_custom_eq_zero_iff_map (a b : CStr) (ha : NUL ∉ a) (hb : NUL ∉ b) :
    strcasecmp_custom a b = 0 ↔ a.map tolower = b.map tolower := by
  induction a generalizing b with
  | nil =>
    cases b with
    | nil => simp [strcasecmp_custom, tolower_NUL]
    | cons c2 s2 =>
      have hc : c2 ≠ NUL := fun h => hb (by simp [h])
      have := tolower_ne_zero hc
      simp only [strcasecmp_custom, List.headD_cons, tolower_NUL, List.map_nil, List.map_cons]
      constructor
      · intro h; omega
      · intro h; simp at h
  | cons c1 s1 ih =>
    cases b with
    | nil =>
      have hc : c1 ≠ NUL := fun h => ha (by simp [h])
      have := tolower_ne_zero hc
      simp only [strcasecmp_custom, tolower_NUL, List.map_nil, List.map_cons]
      constructor
      · intro h; omega
      · intro h; simp at h
    | cons c2 s2 =>
      have ha1 : NUL ∉ s1 := fun h => ha (List.mem_cons_of_mem _ h)
      have hb1 : NUL ∉ s2 := fun h => hb (List.mem_cons_of_mem _ h)
      simp only [strcasecmp_custom, List.map_cons, List.cons.injEq]
      by_cases hc : tolower c1 = tolower c2
      · simp [hc, ih s2 ha1 hb1]
      · simp only [hc, ne_eq, not_false_eq_true, if_true, false_and, iff_false]
        omega

theorem strrchr_eq_none_iff (c : Char) (s : CStr) : strrchr c s = none ↔ c ∉ s := by
  induction s with
  | nil => simp [strrchr]
  | cons x xs ih =>
    simp only [strrchr, List.mem_cons, not_or]
    cases h : strrchr c xs with
    | some i =>
      have : ¬ (c ∉ xs) := fun hn => by rw [ih.mpr hn] at h; cases h
      simp [this]
    | none =>
      have := ih.mp h
      by_cases hx : x = c
      · simp [hx]
      · simp [hx, this, Ne.symm hx]

theorem strrchr_last (c : Char) (pre suf : CStr) (hsuf : c ∉ suf) :
    strrchr c (pre ++ c :: suf) = some pre.length := by
  induction pre with
  | nil => simp [strrchr, (strrchr_eq_none_iff c suf).mpr hsuf]
  | cons x xs ih => simp [strrchr, ih]

theorem strrchr_some_split (c : Char) (s : CStr) (i : Nat) (h : strrchr c s = some i) :
    ∃ suf, s = s.take i ++ c :: suf ∧ c ∉ suf ∧ (s.take i).length = i := by
  induction s generalizing i with
  | nil => simp [strrchr] at h
  | cons x xs ih =>
    simp only [strrchr] at h
    cases hx : strrchr c xs with
    | some j =>
      rw [hx] at h
      simp only [Option.some.injEq] at h
      subst h
      obtain ⟨suf, h1, h2, h3⟩ := ih j hx
      refine ⟨suf, ?_, h2, ?_⟩
      · simp only [List.take_succ_cons, List.cons_append, List.cons.injEq, true_and]
        exact h1
      · simp only [List.take_succ_cons, List.length_cons, h3]
    | none =>
      rw [hx] at h
      by_cases hxc : x = c
      · simp only [hxc, if_true, Option.some.injEq] at h
        subst h
        exact ⟨xs, by simp [hxc], (strrchr_eq_none_iff c xs).mp hx, by simp⟩
      · simp [hxc] at h

theorem int_cast_small (n : Nat) (h : n < 2 ^ 31) : int_cast n = (n : Int) := by
  unfold int_cast
  have h1 : n % 2 ^ 32 = n := Nat.mod_eq_of_lt (by omega)
  rw [h1, if_pos h]

theorem build_new_path_last_dot (pre suf e : CStr) (hsuf : '.' ∉ suf)
    (hfit : (pre ++ '.' :: e).length < MAX_PATH_LEN) :
    build_new_path MAX_PATH_LEN (pre ++ '.' :: suf) e = pre ++ '.' :: e := by
  have hlen : pre.length < 2 ^ 31 := by
    simp only [List.length_append, List.length_cons, MAX_PATH_LEN] at hfit
    omega
  unfold build_new_path
  rw [strrchr_last '.' pre suf hsuf]
  simp only [int_cast_small _ hlen, precision_string, snprintf]
  have h0 : ¬ ((pre.length : Int) < 0) := by omega
  simp only [h0, if_false, Int.toNat_ofNat, List.take_left']
  apply List.take_of_length_le
  omega

theorem build_new_path_no_dot (p e : CStr) (hp : '.' ∉ p)
    (hfit : (p ++ '.' :: e).length < MAX_PATH_LEN) :
    build_new_path MAX_PATH_LEN p e = p ++ '.' :: e := by
  unfold build_new_path
  rw [(strrchr_eq_none_iff '.' p).mpr hp]
  simp only [snprintf]
  apply List.take_of_length_le
  omega

theorem get_extension_last_dot (pre suf : CStr) (hpre : pre ≠ []) (hsuf : '.' ∉ suf)
    (hhead : suf.headD NUL ≠ NUL) : get_extension (pre ++ '.' :: suf) = some suf := by
  unfold get_extension
  rw [strrchr_last '.' pre suf hsuf]
  have hl : pre.length ≠ 0 := fun h => hpre (List.length_eq_zero.mp h)
  have hd : (pre ++ '.' :: suf).drop (pre.length + 1) = suf := by
    rw [List.drop_append_eq_append_drop]
    simp
  simp only [hd]
  rw [if_pos ⟨hl, hhead⟩]

theorem clean_extension_length_le (s : CStr) : (clean_extension s 256).length ≤ 255 := by
  unfold clean_extension
  split <;> simp only [List.length_take] <;> omega

/-! ## Extension matching, cleaning and replacement -/

/-- C6: for C strings `a` and `b`, `strcasecmp_custom a b` is 0 exactly when they have the same
length and agree character by character after ASCII lower-casing; the test is therefore
symmetric, and extension "TXT" matches target "txt" and the other way round. -/
theorem strcasecmp_custom_case_insensitive (a b : CStr) (ha : NUL ∉ a) (hb : NUL ∉ b) :
    (strcasecmp_custom a b = 0 ↔ a.length = b.length ∧ a.map tolower = b.map tolower) ∧
    (strcasecmp_custom a b = 0 ↔ strcasecmp_custom b a = 0) ∧
    strcasecmp_custom "TXT".toList "txt".toList = 0 ∧
    strcasecmp_custom "txt".toList "TXT".toList = 0 := by
  refine ⟨?_, ?_, by decide, by decide⟩
  · rw [strcasecmp_custom_eq_zero_iff_map a b ha hb]
    constructor
    · intro h
      refine ⟨?_, h⟩
      have := congrArg List.length h
      simpa using this
    · intro h; exact h.2
  · rw [strcasecmp_custom_eq_zero_iff_map a b ha hb, strcasecmp_custom_eq_zero_iff_map b a hb ha]
    exact eq_comm

theorem strcasecmp_custom_case_insensitive_witness :
    NUL ∉ "a.TXT".toList.drop 2 ∧ NUL ∉ "txt".toList ∧
    (strcasecmp_custom ("a.TXT".toList.drop 2) "txt".toList = 0 ↔
      ("a.TXT".toList.drop 2).length = "txt".toList.length ∧
        ("a.TXT".toList.drop 2).map tolower = "txt".toList.map tolower) :=
  ⟨by decide, by decide,
    (strcasecmp_custom_case_insensitive ("a.TXT".toList.drop 2) "txt".toList
      (by decide) (by decide)).1⟩

/-- C3: `build_new_path` replaces only the final extension. When the old path has a dot, it
splits as `pre ++ "." ++ suf` with no dot in `suf`, and the new path is `pre ++ "." ++ e`; when it
has none, the new path is the old path followed by "." and `e`; both provided the result fits the
4096-byte buffer. "report.v1.cpp" with "txt" gives "report.v1.txt". -/
theorem build_new_path_replaces_final_extension (p e : CStr) :
    ('.' ∈ p → ∃ pre suf, p = pre ++ '.' :: suf ∧ '.' ∉ suf) ∧
    (∀ pre suf, p = pre ++ '.' :: suf → '.' ∉ suf →
      (pre ++ '.' :: e).length < MAX_PATH_LEN →
      build_new_path MAX_PATH_LEN p e = pre ++ '.' :: e) ∧
    ('.' ∉ p → (p ++ '.' :: e).length < MAX_PATH_LEN →
      build_new_path MAX_PATH_LEN p e = p ++ '.' :: e) ∧
    build_new_path MAX_PATH_LEN "report.v1.cpp".toList "txt".toList = "report.v1.txt".toList := by
  refine ⟨?_, ?_, ?_, by decide⟩
  · intro hp
    cases h : strrchr '.' p with
    | none => exact absurd hp ((strrchr_eq_none_iff '.' p).mp h)
    | some i =>
      obtain ⟨suf, h1, h2, _⟩ := strrchr_some_split '.' p i h
      exact ⟨p.take i, suf, h1, h2⟩
  · intro pre suf hp hsuf hfit
    subst hp
    exact build_new_path_last_dot pre suf e hsuf hfit
  · intro hp hfit
    exact build_new_path_no_dot p e hp hfit

theorem build_new_path_replaces_final_extension_witness :
    build_new_path MAX_PATH_LEN "src/a.b/main.cpp".toList "txt".toList =
      "src/a.b/main".toList ++ '.' :: "txt".toList :=
  (build_new_path_replaces_final_extension "src/a.b/main.cpp".toList "txt".toList).2.1
    "src/a.b/main".toList "cpp".toList (by decide) (by decide) (by decide)

/-- C7, as stated, fails: a raw extension of 256 letters comes back cut to 255. -/
theorem clean_extension_cuts_long_input :
    clean_extension (List.replicate 256 'a') 256 ≠ List.replicate 256 'a' := by
  intro h
  have hlen := clean_extension_length_le (List.replicate 256 'a')
  rw [h, List.length_replicate] at hlen
  omega

/-- C7 (amended): `clean_extension` into the 256-byte buffer returns the first 255 characters of
the text after one leading dot (when there is one) or of the whole text (otherwise); when that
text has at most 255 characters it is returned whole, with every character unchanged. For `s` not
starting with a dot, ".s" and "s" clean to the same text. -/
theorem clean_extension_strips_one_dot (s : CStr) :
    (∀ t, s = '.' :: t →
      clean_extension s 256 = t.take 255 ∧ (t.length ≤ 255 → clean_extension s 256 = t)) ∧
    ((∀ t, s ≠ '.' :: t) →
      clean_extension s 256 = s.take 255 ∧ (s.length ≤ 255 → clean_extension s 256 = s) ∧
      clean_extension ('.' :: s) 256 = clean_extension s 256) := by
  constructor
  · intro t ht
    subst ht
    have h1 : clean_extension ('.' :: t) 256 = t.take 255 := by simp [clean_extension]
    exact ⟨h1, fun hl => by rw [h1]; exact List.take_of_length_le hl⟩
  · intro hs
    have hd : ¬ (s.headD NUL = '.') := by
      intro h
      cases s with
      | nil => exact absurd h (by decide)
      | cons c t =>
        simp only [List.headD_cons] at h
        exact hs t (by rw [h])
    have h1 : clean_extension s 256 = s.take 255 := by
      unfold clean_extension
      rw [if_neg hd]
    refine ⟨h1, fun hl => by rw [h1]; exact List.take_of_length_le hl, ?_⟩
    rw [h1]
    simp [clean_extension]

theorem clean_extension_strips_one_dot_witness :
    clean_extension ".cpp".toList 256 = "cpp".toList ∧
    clean_extension ('.' :: "cpp".toList) 256 = clean_extension "cpp".toList 256 :=
  ⟨((clean_extension_strips_one_dot ".cpp".toList).1 "cpp".toList (by decide)).2 (by decide),
    ((clean_extension_strips_one_dot "cpp".toList).2
      (fun t h => absurd (List.cons.inj h).1 (by decide))).2.2⟩

/-- C10, as stated, fails: "x.TXT" is matched by the extension "txt", and with the same "txt" as
target the new path is "x.txt", not the old path. -/
theorem case_variant_gets_new_name :
    get_extension "x.TXT".toList = some "TXT".toList ∧
    strcasecmp_custom "TXT".toList "txt".toList = 0 ∧
    build_new_path MAX_PATH_LEN "x.TXT".toList "txt".toList = "x.txt".toList ∧
    build_new_path MAX_PATH_LEN "x.TXT".toList "txt".toList ≠ "x.TXT".toList := by
  decide

/-- C10 (amended): for a path `p` of the match list (shorter than the buffer) whose extension
`ext` compares equal to `E` under `strcasecmp_custom`, `p` is `base ++ "." ++ ext`, the new path
`build_new_path p E` is `base ++ "." ++ E`, the two extensions agree after lower-casing, and the
new path equals `p` exactly when `ext` and `E` are the same string, letter case included. -/
theorem same_extension_rename (p E ext : CStr) (hp : NUL ∉ p) (hE : NUL ∉ E)
    (hlen : p.length < MAX_PATH_LEN) (hext : get_extension p = some ext)
    (hcmp : strcasecmp_custom ext E = 0) :
    ∃ base, p = base ++ '.' :: ext ∧
      build_new_path MAX_PATH_LEN p E = base ++ '.' :: E ∧
      ext.map tolower = E.map tolower ∧
      (build_new_path MAX_PATH_LEN p E = p ↔ ext = E) := by
  unfold get_extension at hext
  cases hs : strrchr '.' p with
  | none => rw [hs] at hext; cases hext
  | some i =>
    rw [hs] at hext
    obtain ⟨suf, h1, h2, h3⟩ := strrchr_some_split '.' p i hs
    have hdrop : p.drop (i + 1) = suf := by
      conv_lhs => rw [h1]
      rw [List.drop_append_eq_append_drop]
      simp [h3]
    simp only [hdrop] at hext
    split at hext
    · simp only [Option.some.injEq] at hext
      subst hext
      have hsufp : NUL ∉ suf := by
        intro hm
        apply hp
        rw [h1]
        simp [hm]
      have hmap := (strcasecmp_custom_eq_zero_iff_map suf E hsufp hE).mp hcmp
      have hl : suf.length = E.length := by simpa using congrArg List.length hmap
      have hfit : (p.take i ++ '.' :: E).length < MAX_PATH_LEN := by
        have hpl : p.length = (p.take i ++ '.' :: suf).length := by rw [← h1]
        simp only [List.length_append, List.length_cons] at hpl ⊢
        omega
      have hb : build_new_path MAX_PATH_LEN p E = p.take i ++ '.' :: E := by
        conv_lhs => rw [h1]
        exact build_new_path_last_dot (p.take i) suf E h2 hfit
      refine ⟨p.take i, h1, hb, hmap, ?_⟩
      rw [hb]
      constructor
      · intro h
        have h4 : p.take i ++ '.' :: E = p.take i ++ '.' :: suf := by rw [h, ← h1]
        have := List.append_cancel_left h4
        simp only [List.cons.injEq, true_and] at this
        exact this.symm
      · intro h
        rw [← h, ← h1]
    · cases hext

theorem same_extension_rename_witness :
    ∃ base, "d/x.TXT".toList = base ++ '.' :: "TXT".toList ∧
      build_new_path MAX_PATH_LEN "d/x.TXT".toList "txt".toList = base ++ '.' :: "txt".toList ∧
      "TXT".toList.map tolower = "txt".toList.map tolower ∧
      (build_new_path MAX_PATH_LEN "d/x.TXT".toList "txt".toList = "d/x.TXT".toList ↔
        "TXT".toList = "txt".toList) :=
  same_extension_rename "d/x.TXT".toList "txt".toList "TXT".toList (by decide) (by decide)
    (by decide) (by decide) (by decide)

/-- C8, as stated, fails: with the directory path "." and the dot-free name "README" the new path
is ".txt", not "./README.txt". -/
theorem build_new_path_cuts_in_directory :
    '.' ∉ "README".toList ∧
    build_new_path MAX_PATH_LEN (".".toList ++ '/' :: "README".toList) "txt".toList =
      ".txt".toList ∧
    build_new_path MAX_PATH_LEN (".".toList ++ '/' :: "README".toList) "txt".toList ≠
      (".".toList ++ '/' :: "README".toList) ++ '.' :: "txt".toList := by
  decide

/-- C8 (amended): for a directory path `d` and a name `n` that both contain no dot, and an
extension `e` with the result fitting the 4096-byte buffer, `build_new_path` on `d/n` gives
`d/n.e`, and on `n` alone gives `n.e`. -/
theorem build_new_path_appends_extension (d n e : CStr) (hd : '.' ∉ d) (hn : '.' ∉ n)
    (hfit : ((d ++ '/' :: n) ++ '.' :: e).length < MAX_PATH_LEN) :
    build_new_path MAX_PATH_LEN (d ++ '/' :: n) e = (d ++ '/' :: n) ++ '.' :: e ∧
    build_new_path MAX_PATH_LEN n e = n ++ '.' :: e := by
  constructor
  · apply build_new_path_no_dot _ _ _ hfit
    intro hm
    rcases List.mem_append.mp hm with h | h
    · exact hd h
    · rcases List.mem_cons.mp h with h | h
      · exact absurd h (by decide)
      · exact hn h
  · apply build_new_path_no_dot _ _ hn
    simp only [List.length_append, List.length_cons] at hfit ⊢
    omega

theorem build_new_path_appends_extension_witness :
    build_new_path MAX_PATH_LEN ("docs".toList ++ '/' :: "README".toList) "txt".toList =
      ("docs".toList ++ '/' :: "README".toList) ++ '.' :: "txt".toList ∧
    build_new_path MAX_PATH_LEN "README".toList "txt".toList =
      "README".toList ++ '.' :: "txt".toList :=
  build_new_path_appends_extension "docs".toList "README".toList "txt".toList
    (by decide) (by decide) (by decide)

/-! ## Dotfiles and the confirmation prompt -/

/-- C2 (the code departs from it): `get_extension` gives no extension for the bare name
".gitignore", but the scanners hand it the joined path "d/.gitignore", for which it gives
"gitignore"; both scans of "d" for the extension "gitignore" then list the dotfile. The same
holds under every directory path: the text after the leading dot is taken as the extension. -/
theorem dotfile_listed_by_scan :
    get_extension ".gitignore".toList = none ∧
    get_extension (full_path "d".toList ".gitignore".toList) = some "gitignore".toList ∧
    scan_directory_non_recursive dotfile_fs "d".toList "gitignore".toList Scan.start =
      { files_to_rename := ["d/.gitignore".toList], stderr := [] } ∧
    scan_directory_recursive dotfile_fs "gitignore".toList 1 "d".toList Scan.start =
      some { files_to_rename := ["d/.gitignore".toList], stderr := [] } ∧
    (∀ d rest : CStr, '.' ∉ rest → rest.headD NUL ≠ NUL →
      get_extension (d ++ '/' :: '.' :: rest) = some rest) := by
  refine ⟨by decide, by decide, by decide, by decide, ?_⟩
  intro d rest hdot hhead
  have h := get_extension_last_dot (d ++ ['/']) rest (by simp) hdot hhead
  simpa using h

/-- C1 (the code departs from it): the answer "n" followed by a newline passes the confirmation
test, as do "no" and "yes" lines and every buffer of two or more characters, the newline
counted; "n" at end of input and the empty line cancel. A run on a directory with one match and
the answer "n" renames the file. -/
theorem confirmation_accepts_n_line :
    confirmation_gate false "n\n".toList = true ∧
    confirmation_gate false "no\n".toList = true ∧
    confirmation_gate false "yes\n".toList = true ∧
    confirmation_gate false "y\n".toList = true ∧
    confirmation_gate false "n".toList = false ∧
    confirmation_gate false "\n".toList = false ∧
    confirmation_gate false [] = false ∧
    (∀ input : List Char, 2 ≤ strlen input → check_confirmation input = true) ∧
    (main cpp_fs rename_ok 0
      ["file-renamer".toList, "-p".toList, "d".toList, "-f".toList, "cpp".toList,
        "-t".toList, "txt".toList]
      "n\n".toList ()).map (fun o => (o.exit_status, o.calls)) =
      some (0, [("d/a.cpp".toList, "d/a.txt".toList, true)]) := by
  refine ⟨by decide, by decide, by decide, by decide, by decide, by decide, by decide, ?_,
    by decide⟩
  intro input hlen
  unfold check_confirmation
  simp only
  rw [if_neg]
  omega

/-! ## The rename loop -/

theorem rename_files_run {σ : Type} (rename : σ → CStr → CStr → Bool × σ) (to_ext : CStr)
    (files : List CStr) :
    ∀ run : RenameRun σ,
      (rename_files rename to_ext files run).calls =
        run.calls ++ expected_calls rename to_ext files run.world ∧
      (rename_files rename to_ext files run).world = world_after rename to_ext files run.world ∧
      (rename_files rename to_ext files run).file_renamed_count =
        run.file_renamed_count +
          ((expected_calls rename to_ext files run.world).filter (fun c => c.2.2)).length ∧
      (rename_files rename to_ext files run).stderr =
        run.stderr ++ ((expected_calls rename to_ext files run.world).filter
          (fun c => !c.2.2)).map (fun c => failure_notice c.1) := by
  induction files with
  | nil => intro run; simp [rename_files, expected_calls, world_after]
  | cons f rest ih =>
    intro run
    simp only [rename_files]
    obtain ⟨h1, h2, h3, h4⟩ := ih
      { world := (rename run.world f (build_new_path MAX_PATH_LEN f to_ext)).2,
        stdout := run.stdout ++
          ["Renaming: ".toList ++ f ++ " -> ".toList ++ build_new_path MAX_PATH_LEN f to_ext ++
            "\n".toList],
        stderr :=
          if (rename run.world f (build_new_path MAX_PATH_LEN f to_ext)).1 then run.stderr
          else run.stderr ++ ["  -> Failed to rename file \x27".toList ++ f ++ "\x27\n".toList],
        file_renamed_count :=
          if (rename run.world f (build_new_path MAX_PATH_LEN f to_ext)).1 then
            run.file_renamed_count + 1
          else run.file_renamed_count,
        calls := run.calls ++ [(f, build_new_path MAX_PATH_LEN f to_ext,
          (rename run.world f (build_new_path MAX_PATH_LEN f to_ext)).1)] }
    refine ⟨?_, ?_, ?_, ?_⟩
    · rw [h1]; simp [expected_calls]
    · rw [h2]; simp [world_after]
    · rw [h3]
      cases hr : (rename run.world f (build_new_path MAX_PATH_LEN f to_ext)).1 with
      | false => simp [expected_calls, hr, List.filter_cons]
      | true =>
        simp [expected_calls, hr, List.filter_cons]
        omega
    · rw [h4]
      cases hr : (rename run.world f (build_new_path MAX_PATH_LEN f to_ext)).1 <;>
        simp [expected_calls, hr, List.filter_cons, failure_notice]

theorem expected_calls_length {σ : Type} (rename : σ → CStr → CStr → Bool × σ) (to_ext : CStr)
    (files : List CStr) : ∀ w, (expected_calls rename to_ext files w).length = files.length := by
  induction files with
  | nil => intro w; rfl
  | cons f rest ih => intro w; simp [expected_calls, ih]

theorem expected_calls_getElem {σ : Type} (rename : σ → CStr → CStr → Bool × σ) (to_ext : CStr)
    (files : List CStr) :
    ∀ (w : σ) (i : Nat) (f : CStr), files[i]? = some f →
      (expected_calls rename to_ext files w)[i]? =
        some (f, build_new_path MAX_PATH_LEN f to_ext,
          (rename (world_after rename to_ext (files.take i) w) f
            (build_new_path MAX_PATH_LEN f to_ext)).1) := by
  induction files with
  | nil => intro w i f h; simp at h
  | cons g rest ih =>
    intro w i f h
    cases i with
    | zero =>
      simp only [List.getElem?_cons_zero, Option.some.injEq] at h
      subst h
      simp [expected_calls, world_after]
    | succ j =>
      simp only [List.getElem?_cons_succ] at h
      simp only [expected_calls, List.getElem?_cons_succ, List.take_succ_cons]
      rw [ih _ j f h]
      simp [world_after]

/-- C5: whatever each `rename` call returns, the run calls `rename` once for every entry of the
match list, in list order: the call for entry `i` is made on the world the calls for the
entries before it left, with the new path of `build_new_path`, and the world at the end is the
one all these calls produce. `file_renamed_count`, the number shown in the summary, is the
number of calls that returned success, each failure leaves its notice on stderr, and the run
ends with exit status 0. -/
theorem rename_batch_never_aborts {σ : Type} (rename : σ → CStr → CStr → Bool × σ)
    (skip_confirmation : Bool) (from_ext to_ext : CStr) (scan : Scan) (out : List CStr)
    (stdin : List Char) (w : σ) (o : Outcome σ)
    (ho : o = main_after_scan rename skip_confirmation from_ext to_ext scan out stdin w)
    (hfiles : scan.file_count ≠ 0) (hgo : confirmation_gate skip_confirmation stdin = true) :
    o.calls.length = scan.files_to_rename.length ∧
    (∀ i f, scan.files_to_rename[i]? = some f →
      o.calls[i]? = some (f, build_new_path MAX_PATH_LEN f to_ext,
        (rename (world_after rename to_ext (scan.files_to_rename.take i) w) f
          (build_new_path MAX_PATH_LEN f to_ext)).1)) ∧
    o.world = world_after rename to_ext scan.files_to_rename w ∧
    (rename_files rename to_ext scan.files_to_rename
      { world := w, stdout := out, stderr := scan.stderr, file_renamed_count := 0,
        calls := [] }).file_renamed_count = (o.calls.filter (fun c => c.2.2)).length ∧
    o.stdout.getLast? = some (summary ((o.calls.filter (fun c => c.2.2)).length)) ∧
    o.stderr = scan.stderr ++
      ((o.calls.filter (fun c => !c.2.2)).map (fun c => failure_notice c.1)) ∧
    o.exit_status = 0 := by
  subst ho
  simp only [main_after_scan, if_neg hfiles, hgo, if_true]
  have hrun := fun (r : RenameRun σ) => rename_files_run rename to_ext scan.files_to_rename r
  refine ⟨?_, ?_, ?_, ?_, ?_, ?_, trivial⟩
  · rw [(hrun _).1]
    simp [expected_calls_length]
  · intro i f hf
    rw [(hrun _).1]
    simpa using expected_calls_getElem rename to_ext scan.files_to_rename w i f hf
  · exact (hrun _).2.1
  · rw [(hrun _).2.2.1, (hrun _).1]
    simp
  · rw [(hrun _).2.2.1, (hrun _).1]
    simp [List.getLast?_append]
  · rw [(hrun _).2.2.2, (hrun _).1]
    simp

theorem rename_batch_never_aborts_witness :
    (main_after_scan rename_logging true "c".toList "txt".toList
      { files_to_rename := ["a.c".toList, "b.c".toList, "c.c".toList], stderr := [] } [] []
      []).world =
      [("a.c".toList, "a.txt".toList), ("b.c".toList, "b.txt".toList),
        ("c.c".toList, "c.txt".toList)] ∧
    (main_after_scan rename_logging true "c".toList "txt".toList
      { files_to_rename := ["a.c".toList, "b.c".toList, "c.c".toList], stderr := [] } [] []
      []).calls[1]? = some ("b.c".toList, "b.txt".toList, false) ∧
    (main_after_scan rename_logging true "c".toList "txt".toList
      { files_to_rename := ["a.c".toList, "b.c".toList, "c.c".toList], stderr := [] } [] []
      []).calls[2]? = some ("c.c".toList, "c.txt".toList, true) ∧
    (main_after_scan rename_logging true "c".toList "txt".toList
      { files_to_rename := ["a.c".toList, "b.c".toList, "c.c".toList], stderr := [] } [] []
      []).exit_status = 0 := by
  have h := rename_batch_never_aborts rename_logging true "c".toList "txt".toList
    { files_to_rename := ["a.c".toList, "b.c".toList, "c.c".toList], stderr := [] } [] [] []
    _ rfl (by decide) (by decide)
  exact ⟨h.2.2.1.trans (by decide), (h.2.1 1 "b.c".toList (by decide)).trans (by decide),
    (h.2.1 2 "c.c".toList (by decide)).trans (by decide), h.2.2.2.2.2.2⟩

/-! ## The argument loop -/

theorem parse_arguments_help (t : CStr) (rest : List CStr) (a : Args)
    (h : is_help_flag t = true) : parse_arguments (t :: rest) a = .error [] := by
  simp only [is_help_flag, Bool.or_eq_true, decide_eq_true_eq] at h
  rw [parse_arguments.eq_def]
  simp only [if_pos h]

theorem parse_arguments_value_last (t : CStr) (a : Args) (h : is_value_flag t = true) :
    parse_arguments [t] a = .error (requires_message t) := by
  simp only [is_value_flag, is_path_flag, is_from_flag, is_to_flag, Bool.or_eq_true,
    decide_eq_true_eq] at h
  rcases h with ((h | h) | (h | h)) | (h | h) <;> subst h <;> rfl

theorem parse_arguments_value (t v : CStr) (rest : List CStr) (a : Args)
    (h : is_value_flag t = true) :
    parse_arguments (t :: v :: rest) a = parse_arguments rest (set_value t v a) := by
  simp only [is_value_flag, is_path_flag, is_from_flag, is_to_flag, Bool.or_eq_true,
    decide_eq_true_eq] at h
  rcases h with ((h | h) | (h | h)) | (h | h) <;> subst h <;> rfl

theorem parse_arguments_switch (t : CStr) (rest : List CStr) (a : Args)
    (h : is_switch t = true) :
    parse_arguments (t :: rest) a = parse_arguments rest (set_switch t a) := by
  simp only [is_switch, is_yes_flag, is_recursive_flag, Bool.or_eq_true,
    decide_eq_true_eq] at h
  rcases h with h | (h | h) <;> subst h <;> cases rest <;> rfl

theorem parse_arguments_unknown (t : CStr) (rest : List CStr) (a : Args)
    (h : is_known_flag t = false) :
    parse_arguments (t :: rest) a = .error (unknown_argument_message t) := by
  simp only [is_known_flag, is_help_flag, is_value_flag, is_path_flag, is_from_flag, is_to_flag,
    is_switch, is_yes_flag, is_recursive_flag, Bool.or_eq_false_iff, decide_eq_false_iff_not]
    at h
  obtain ⟨⟨⟨h1, h2⟩, ⟨⟨h3, h4⟩, ⟨h5, h6⟩⟩, ⟨h7, h8⟩⟩, h9, h10, h11⟩ := h
  rw [parse_arguments.eq_def]
  simp only [h1, h2, h3, h4, h5, h6, h7, h8, h9, h10, h11, or_self, if_false]

theorem value_flag_not_switch (t : CStr) (h : is_value_flag t = true) : is_switch t = false := by
  simp only [is_value_flag, is_path_flag, is_from_flag, is_to_flag, Bool.or_eq_true,
    decide_eq_true_eq] at h
  rcases h with ((h | h) | (h | h)) | (h | h) <;> subst h <;> decide

theorem value_flag_not_help (t : CStr) (h : is_value_flag t = true) : is_help_flag t = false := by
  simp only [is_value_flag, is_path_flag, is_from_flag, is_to_flag, Bool.or_eq_true,
    decide_eq_true_eq] at h
  rcases h with ((h | h) | (h | h)) | (h | h) <;> subst h <;> decide

theorem switch_not_help (t : CStr) (h : is_switch t = true) : is_help_flag t = false := by
  simp only [is_switch, is_yes_flag, is_recursive_flag, Bool.or_eq_true,
    decide_eq_true_eq] at h
  rcases h with h | (h | h) <;> subst h <;> decide

theorem switch_not_value (t : CStr) (h : is_switch t = true) : is_value_flag t = false := by
  cases hv : is_value_flag t with
  | false => rfl
  | true => rw [value_flag_not_switch t hv] at h; cases h

theorem options_complete_value (t v : CStr) (rest : List CStr) (h : is_value_flag t = true) :
    options_complete (t :: v :: rest) = options_complete rest := by
  simp only [options_complete, h, if_true]

theorem options_complete_value_last (t : CStr) (h : is_value_flag t = true) :
    options_complete [t] = false := by
  simp only [options_complete, value_flag_not_switch t h]

theorem options_complete_switch (t : CStr) (rest : List CStr) (h : is_switch t = true) :
    options_complete (t :: rest) = options_complete rest := by
  cases rest with
  | nil => simp only [options_complete, h]
  | cons v rest => simp [options_complete, h, switch_not_value t h]

theorem options_complete_other (t : CStr) (rest : List CStr) (hv : is_value_flag t = false)
    (hs : is_switch t = false) : options_complete (t :: rest) = false := by
  cases rest with
  | nil => simp only [options_complete, hs]
  | cons v rest => simp [options_complete, hs, hv]

/-- Induction over a token list the way the argument loop reads it. -/
theorem tokens_induction (P : List CStr → Prop) (hnil : P [])
    (hhelp : ∀ t rest, is_help_flag t = true → P (t :: rest))
    (hlast : ∀ t, is_value_flag t = true → P [t])
    (hval : ∀ t v rest, is_value_flag t = true → P rest → P (t :: v :: rest))
    (hsw : ∀ t rest, is_switch t = true → P rest → P (t :: rest))
    (hunk : ∀ t rest, is_known_flag t = false → P (t :: rest)) : ∀ args, P args := by
  suffices H : ∀ n, ∀ args : List CStr, args.length = n → P args from
    fun args => H _ args rfl
  intro n
  induction n using Nat.strong_induction_on with
  | _ n ih =>
    intro args h
    cases args with
    | nil => exact hnil
    | cons t rest =>
      cases hh : is_help_flag t with
      | true => exact hhelp t rest hh
      | false =>
        cases hv : is_value_flag t with
        | true =>
          cases rest with
          | nil => exact hlast t hv
          | cons v rest1 =>
            refine hval t v rest1 hv (ih rest1.length ?_ rest1 rfl)
            simp only [List.length_cons] at h
            omega
        | false =>
          cases hs : is_switch t with
          | true =>
            refine hsw t rest hs (ih rest.length ?_ rest rfl)
            simp only [List.length_cons] at h
            omega
          | false =>
            exact hunk t rest (by simp [is_known_flag, hh, hv, hs])

theorem known_of_value (t : CStr) (h : is_value_flag t = true) : is_known_flag t = true := by
  simp [is_known_flag, h]

theorem known_of_switch (t : CStr) (h : is_switch t = true) : is_known_flag t = true := by
  simp [is_known_flag, h]

theorem known_of_help (t : CStr) (h : is_help_flag t = true) : is_known_flag t = true := by
  simp [is_known_flag, h]

theorem not_value_of_unknown (t : CStr) (h : is_known_flag t = false) :
    is_value_flag t = false := by
  cases hv : is_value_flag t with
  | false => rfl
  | true => rw [known_of_value t hv] at h; cases h

theorem not_switch_of_unknown (t : CStr) (h : is_known_flag t = false) :
    is_switch t = false := by
  cases hv : is_switch t with
  | false => rfl
  | true => rw [known_of_switch t hv] at h; cases h

theorem not_help_of_unknown (t : CStr) (h : is_known_flag t = false) :
    is_help_flag t = false := by
  cases hv : is_help_flag t with
  | false => rfl
  | true => rw [known_of_help t hv] at h; cases h

theorem not_value_of_help (t : CStr) (h : is_help_flag t = true) : is_value_flag t = false := by
  cases hv : is_value_flag t with
  | false => rfl
  | true => rw [value_flag_not_help t hv] at h; cases h

theorem not_switch_of_help (t : CStr) (h : is_help_flag t = true) : is_switch t = false := by
  cases hv : is_switch t with
  | false => rfl
  | true => rw [switch_not_help t hv] at h; cases h

/-- Complete options are consumed by the argument loop without an error. -/
theorem parse_arguments_skips (pre : List CStr) :
    options_complete pre = true →
      ∀ rest a, ∃ a1, parse_arguments (pre ++ rest) a = parse_arguments rest a1 := by
  induction pre using tokens_induction with
  | hnil => intro _ rest a; exact ⟨a, rfl⟩
  | hhelp t r hh =>
    intro hc
    rw [options_complete_other t r (not_value_of_help t hh) (not_switch_of_help t hh)] at hc
    cases hc
  | hlast t hv => intro hc; rw [options_complete_value_last t hv] at hc; cases hc
  | hval t v r hv ih =>
    intro hc rest a
    rw [options_complete_value t v r hv] at hc
    obtain ⟨a1, h1⟩ := ih hc rest (set_value t v a)
    exact ⟨a1, by rw [← h1]; exact parse_arguments_value t v (r ++ rest) a hv⟩
  | hsw t r hs ih =>
    intro hc rest a
    rw [options_complete_switch t r hs] at hc
    obtain ⟨a1, h1⟩ := ih hc rest (set_switch t a)
    exact ⟨a1, by rw [← h1]; exact parse_arguments_switch t (r ++ rest) a hs⟩
  | hunk t r hu =>
    intro hc
    rw [options_complete_other t r (not_value_of_unknown t hu) (not_switch_of_unknown t hu)] at hc
    cases hc

theorem parse_arguments_ok_of_complete (args : List CStr) (a : Args)
    (h : options_complete args = true) : ∃ a1, parse_arguments args a = .ok a1 := by
  obtain ⟨a1, h1⟩ := parse_arguments_skips args h [] a
  rw [List.append_nil] at h1
  exact ⟨a1, by rw [h1]; rfl⟩

theorem complete_of_parse_arguments_ok (args : List CStr) :
    ∀ a a1, parse_arguments args a = .ok a1 → options_complete args = true := by
  induction args using tokens_induction with
  | hnil => intro _ _ _; rfl
  | hhelp t r hh => intro a a1 h; rw [parse_arguments_help t r a hh] at h; cases h
  | hlast t hv => intro a a1 h; rw [parse_arguments_value_last t a hv] at h; cases h
  | hval t v r hv ih =>
    intro a a1 h
    rw [parse_arguments_value t v r a hv] at h
    rw [options_complete_value t v r hv]
    exact ih _ _ h
  | hsw t r hs ih =>
    intro a a1 h
    rw [parse_arguments_switch t r a hs] at h
    rw [options_complete_switch t r hs]
    exact ih _ _ h
  | hunk t r hu => intro a a1 h; rw [parse_arguments_unknown t r a hu] at h; cases h

/-- A token list that is not made of complete options has an offending token at a flag position:
a help flag, a value flag as last token, or an unknown token. -/
theorem offending_token_of_incomplete (args : List CStr) :
    options_complete args = false →
      ∃ pre tok rest, FlagAt args pre tok rest ∧
        (is_help_flag tok = true ∨ (is_value_flag tok = true ∧ rest = []) ∨
          is_known_flag tok = false) := by
  induction args using tokens_induction with
  | hnil => intro h; cases h
  | hhelp t r hh => intro _; exact ⟨[], t, r, ⟨rfl, rfl⟩, Or.inl hh⟩
  | hlast t hv => intro _; exact ⟨[], t, [], ⟨rfl, rfl⟩, Or.inr (Or.inl ⟨hv, rfl⟩)⟩
  | hval t v r hv ih =>
    intro hc
    rw [options_complete_value t v r hv] at hc
    obtain ⟨pre, tok, rest, ⟨h1, h2⟩, h3⟩ := ih hc
    refine ⟨t :: v :: pre, tok, rest, ⟨by rw [h1]; rfl, ?_⟩, h3⟩
    rw [options_complete_value t v pre hv]; exact h2
  | hsw t r hs ih =>
    intro hc
    rw [options_complete_switch t r hs] at hc
    obtain ⟨pre, tok, rest, ⟨h1, h2⟩, h3⟩ := ih hc
    refine ⟨t :: pre, tok, rest, ⟨by rw [h1]; rfl, ?_⟩, h3⟩
    rw [options_complete_switch t pre hs]; exact h2
  | hunk t r hu => intro _; exact ⟨[], t, r, ⟨rfl, rfl⟩, Or.inr (Or.inr hu)⟩

theorem FlagAt_value_cons (t v : CStr) (args pre : List CStr) (tok : CStr) (rest : List CStr)
    (hv : is_value_flag t = true) (h : FlagAt args pre tok rest) :
    FlagAt (t :: v :: args) (t :: v :: pre) tok rest :=
  ⟨by rw [h.1]; rfl, by rw [options_complete_value t v pre hv]; exact h.2⟩

theorem FlagAt_switch_cons (t : CStr) (args pre : List CStr) (tok : CStr) (rest : List CStr)
    (hs : is_switch t = true) (h : FlagAt args pre tok rest) :
    FlagAt (t :: args) (t :: pre) tok rest :=
  ⟨by rw [h.1]; rfl, by rw [options_complete_switch t pre hs]; exact h.2⟩

theorem FlagAt_value_inv (t v : CStr) (args pre : List CStr) (tok : CStr) (rest : List CStr)
    (hv : is_value_flag t = true) (h : FlagAt (t :: v :: args) pre tok rest) :
    (pre = [] ∧ tok = t ∧ rest = v :: args) ∨
      ∃ pre1, pre = t :: v :: pre1 ∧ FlagAt args pre1 tok rest := by
  obtain ⟨h1, h2⟩ := h
  cases pre with
  | nil =>
    simp only [List.nil_append, List.cons.injEq] at h1
    exact Or.inl ⟨rfl, h1.1.symm, h1.2.symm⟩
  | cons x pre1 =>
    simp only [List.cons_append, List.cons.injEq] at h1
    obtain ⟨hx, h1⟩ := h1
    subst hx
    cases pre1 with
    | nil => rw [options_complete_value_last t hv] at h2; cases h2
    | cons y pre2 =>
      simp only [List.cons_append, List.cons.injEq] at h1
      obtain ⟨hy, h1⟩ := h1
      subst hy
      rw [options_complete_value t v pre2 hv] at h2
      exact Or.inr ⟨pre2, rfl, h1, h2⟩

theorem FlagAt_switch_inv (t : CStr) (args pre : List CStr) (tok : CStr) (rest : List CStr)
    (hs : is_switch t = true) (h : FlagAt (t :: args) pre tok rest) :
    (pre = [] ∧ tok = t ∧ rest = args) ∨ ∃ pre1, pre = t :: pre1 ∧ FlagAt args pre1 tok rest := by
  obtain ⟨h1, h2⟩ := h
  cases pre with
  | nil =>
    simp only [List.nil_append, List.cons.injEq] at h1
    exact Or.inl ⟨rfl, h1.1.symm, h1.2.symm⟩
  | cons x pre1 =>
    simp only [List.cons_append, List.cons.injEq] at h1
    obtain ⟨hx, h1⟩ := h1
    subst hx
    rw [options_complete_switch t pre1 hs] at h2
    exact Or.inr ⟨pre1, rfl, h1, h2⟩

theorem not_Given_nil (isf : CStr → Bool) : ¬ Given isf [] := by
  rintro ⟨pre, f, v, rest, ⟨h1, _⟩, _⟩
  cases pre <;> cases h1

theorem not_Present_nil (isf : CStr → Bool) : ¬ Present isf [] := by
  rintro ⟨pre, f, rest, ⟨h1, _⟩, _⟩
  cases pre <;> cases h1

theorem Given_value_iff (isf : CStr → Bool) (t v : CStr) (args : List CStr)
    (hv : is_value_flag t = true) :
    Given isf (t :: v :: args) ↔ isf t = true ∨ Given isf args := by
  constructor
  · rintro ⟨pre, f, w, rest, hf, hi⟩
    rcases FlagAt_value_inv t v args pre f (w :: rest) hv hf with ⟨_, h2, _⟩ | ⟨pre1, _, h2⟩
    · exact Or.inl (h2 ▸ hi)
    · exact Or.inr ⟨pre1, f, w, rest, h2, hi⟩
  · rintro (h | ⟨pre, f, w, rest, hf, hi⟩)
    · exact ⟨[], t, v, args, ⟨rfl, rfl⟩, h⟩
    · exact ⟨t :: v :: pre, f, w, rest, FlagAt_value_cons t v args pre f _ hv hf, hi⟩

theorem Given_switch_iff (isf : CStr → Bool) (hisf : ∀ f, isf f = true → is_value_flag f = true)
    (t : CStr) (args : List CStr) (hs : is_switch t = true) :
    Given isf (t :: args) ↔ Given isf args := by
  constructor
  · rintro ⟨pre, f, w, rest, hf, hi⟩
    rcases FlagAt_switch_inv t args pre f (w :: rest) hs hf with ⟨_, h2, _⟩ | ⟨pre1, _, h2⟩
    · subst h2
      rw [value_flag_not_switch f (hisf f hi)] at hs
      cases hs
    · exact ⟨pre1, f, w, rest, h2, hi⟩
  · rintro ⟨pre, f, w, rest, hf, hi⟩
    exact ⟨t :: pre, f, w, rest, FlagAt_switch_cons t args pre f _ hs hf, hi⟩

theorem Present_value_iff (isf : CStr → Bool) (hisf : ∀ f, isf f = true → is_switch f = true)
    (t v : CStr) (args : List CStr) (hv : is_value_flag t = true) :
    Present isf (t :: v :: args) ↔ Present isf args := by
  constructor
  · rintro ⟨pre, f, rest, hf, hi⟩
    rcases FlagAt_value_inv t v args pre f rest hv hf with ⟨_, h2, _⟩ | ⟨pre1, _, h2⟩
    · subst h2
      rw [switch_not_value f (hisf f hi)] at hv
      cases hv
    · exact ⟨pre1, f, rest, h2, hi⟩
  · rintro ⟨pre, f, rest, hf, hi⟩
    exact ⟨t :: v :: pre, f, rest, FlagAt_value_cons t v args pre f _ hv hf, hi⟩

theorem Present_switch_iff (isf : CStr → Bool) (t : CStr) (args : List CStr)
    (hs : is_switch t = true) :
    Present isf (t :: args) ↔ isf t = true ∨ Present isf args := by
  constructor
  · rintro ⟨pre, f, rest, hf, hi⟩
    rcases FlagAt_switch_inv t args pre f rest hs hf with ⟨_, h2, _⟩ | ⟨pre1, _, h2⟩
    · exact Or.inl (h2 ▸ hi)
    · exact Or.inr ⟨pre1, f, rest, h2, hi⟩
  · rintro (h | ⟨pre, f, rest, hf, hi⟩)
    · exact ⟨[], t, args, ⟨rfl, rfl⟩, h⟩
    · exact ⟨t :: pre, f, rest, FlagAt_switch_cons t args pre f _ hs hf, hi⟩

theorem LastValue_value_cons (isf : CStr → Bool) (t v x : CStr) (args : List CStr)
    (hv : is_value_flag t = true) (h : LastValue isf args x) :
    LastValue isf (t :: v :: args) x := by
  obtain ⟨pre, f, rest, hf, hi, hn⟩ := h
  exact ⟨t :: v :: pre, f, rest, FlagAt_value_cons t v args pre f _ hv hf, hi, hn⟩

theorem LastValue_switch_cons (isf : CStr → Bool) (t x : CStr) (args : List CStr)
    (hs : is_switch t = true) (h : LastValue isf args x) : LastValue isf (t :: args) x := by
  obtain ⟨pre, f, rest, hf, hi, hn⟩ := h
  exact ⟨t :: pre, f, rest, FlagAt_switch_cons t args pre f _ hs hf, hi, hn⟩

/-- After a successful argument loop, a value slot holds the value of the last flag of its kind
at a flag position, or its initial content when no such flag was given. -/
theorem parse_arguments_value_slot (isf : CStr → Bool) (get : Args → Option CStr)
    (hisf : ∀ f, isf f = true → is_value_flag f = true)
    (hset : ∀ f v a, is_value_flag f = true →
      get (set_value f v a) = if isf f = true then some v else get a)
    (hsw : ∀ f a, get (set_switch f a) = get a) (args : List CStr) :
    ∀ a a1, parse_arguments args a = .ok a1 →
      (∃ v, get a1 = some v ∧ LastValue isf args v) ∨ (¬ Given isf args ∧ get a1 = get a) := by
  induction args using tokens_induction with
  | hnil =>
    intro a a1 h
    simp only [parse_arguments, Except.ok.injEq] at h
    exact Or.inr ⟨not_Given_nil isf, by rw [h]⟩
  | hhelp t r hh => intro a a1 h; rw [parse_arguments_help t r a hh] at h; cases h
  | hlast t hv => intro a a1 h; rw [parse_arguments_value_last t a hv] at h; cases h
  | hval t v r hv ih =>
    intro a a1 h
    rw [parse_arguments_value t v r a hv] at h
    rcases ih _ _ h with ⟨x, h1, h2⟩ | ⟨h1, h2⟩
    · exact Or.inl ⟨x, h1, LastValue_value_cons isf t v x r hv h2⟩
    · rw [hset t v a hv] at h2
      cases hi : isf t with
      | true =>
        rw [hi] at h2
        exact Or.inl ⟨v, by simpa using h2, [], t, r, ⟨rfl, rfl⟩, hi, h1⟩
      | false =>
        rw [hi] at h2
        refine Or.inr ⟨?_, by simpa using h2⟩
        rw [Given_value_iff isf t v r hv]
        rintro (h3 | h3)
        · rw [hi] at h3; cases h3
        · exact h1 h3
  | hsw t r hs ih =>
    intro a a1 h
    rw [parse_arguments_switch t r a hs] at h
    rcases ih _ _ h with ⟨x, h1, h2⟩ | ⟨h1, h2⟩
    · exact Or.inl ⟨x, h1, LastValue_switch_cons isf t x r hs h2⟩
    · rw [hsw] at h2
      exact Or.inr ⟨by rw [Given_switch_iff isf hisf t r hs]; exact h1, h2⟩
  | hunk t r hu => intro a a1 h; rw [parse_arguments_unknown t r a hu] at h; cases h

/-- After a successful argument loop, a switch is set exactly when it was set before or its flag
occurs at a flag position. -/
theorem parse_arguments_switch_slot (isf : CStr → Bool) (get : Args → Bool)
    (hisf : ∀ f, isf f = true → is_switch f = true)
    (hset : ∀ f v a, get (set_value f v a) = get a)
    (hsw : ∀ f a, is_switch f = true →
      (get (set_switch f a) = true ↔ get a = true ∨ isf f = true)) (args : List CStr) :
    ∀ a a1, parse_arguments args a = .ok a1 →
      (get a1 = true ↔ get a = true ∨ Present isf args) := by
  induction args using tokens_induction with
  | hnil =>
    intro a a1 h
    simp only [parse_arguments, Except.ok.injEq] at h
    subst h
    constructor
    · intro h; exact Or.inl h
    · rintro (h | h)
      · exact h
      · exact absurd h (not_Present_nil isf)
  | hhelp t r hh => intro a a1 h; rw [parse_arguments_help t r a hh] at h; cases h
  | hlast t hv => intro a a1 h; rw [parse_arguments_value_last t a hv] at h; cases h
  | hval t v r hv ih =>
    intro a a1 h
    rw [parse_arguments_value t v r a hv] at h
    rw [ih _ _ h, hset, Present_value_iff isf hisf t v r hv]
  | hsw t r hs ih =>
    intro a a1 h
    rw [parse_arguments_switch t r a hs] at h
    rw [ih _ _ h, hsw t a hs, Present_switch_iff isf t r hs, or_assoc]
  | hunk t r hu => intro a a1 h; rw [parse_arguments_unknown t r a hu] at h; cases h

theorem path_flag_value (f : CStr) (h : is_path_flag f = true) : is_value_flag f = true := by
  simp [is_value_flag, h]

theorem from_flag_value (f : CStr) (h : is_from_flag f = true) : is_value_flag f = true := by
  simp [is_value_flag, h]

theorem to_flag_value (f : CStr) (h : is_to_flag f = true) : is_value_flag f = true := by
  simp [is_value_flag, h]

theorem from_flag_not_path (f : CStr) (h : is_from_flag f = true) : is_path_flag f = false := by
  simp only [is_from_flag, Bool.or_eq_true, decide_eq_true_eq] at h
  rcases h with h | h <;> subst h <;> decide

theorem to_flag_not_path (f : CStr) (h : is_to_flag f = true) : is_path_flag f = false := by
  simp only [is_to_flag, Bool.or_eq_true, decide_eq_true_eq] at h
  rcases h with h | h <;> subst h <;> decide

theorem to_flag_not_from (f : CStr) (h : is_to_flag f = true) : is_from_flag f = false := by
  simp only [is_to_flag, Bool.or_eq_true, decide_eq_true_eq] at h
  rcases h with h | h <;> subst h <;> decide

theorem yes_flag_not_recursive (f : CStr) (h : is_yes_flag f = true) :
    is_recursive_flag f = false := by
  simp only [is_yes_flag, decide_eq_true_eq] at h
  subst h
  decide

theorem LastValue_Given (isf : CStr → Bool) (args : List CStr) (v : CStr)
    (h : LastValue isf args v) : Given isf args := by
  obtain ⟨pre, f, rest, hf, hi, _⟩ := h
  exact ⟨pre, f, v, rest, hf, hi⟩

theorem path_slot (args : List CStr) (a a1 : Args) (h : parse_arguments args a = .ok a1) :
    (∃ v, a1.path_str = some v ∧ LastValue is_path_flag args v) ∨
      (¬ Given is_path_flag args ∧ a1.path_str = a.path_str) := by
  refine parse_arguments_value_slot is_path_flag Args.path_str path_flag_value ?_ ?_ args a a1 h
  · intro f v a _
    unfold set_value
    cases hp : is_path_flag f with
    | true => simp
    | false => cases hf : is_from_flag f <;> simp
  · intro f a
    unfold set_switch
    split <;> rfl

theorem from_slot (args : List CStr) (a a1 : Args) (h : parse_arguments args a = .ok a1) :
    (∃ v, a1.from_ext_str = some v ∧ LastValue is_from_flag args v) ∨
      (¬ Given is_from_flag args ∧ a1.from_ext_str = a.from_ext_str) := by
  refine parse_arguments_value_slot is_from_flag Args.from_ext_str from_flag_value ?_ ?_ args a a1 h
  · intro f v a _
    unfold set_value
    cases hf : is_from_flag f with
    | true => simp [from_flag_not_path f hf]
    | false => cases hp : is_path_flag f <;> simp
  · intro f a
    unfold set_switch
    split <;> rfl

theorem to_slot (args : List CStr) (a a1 : Args) (h : parse_arguments args a = .ok a1) :
    (∃ v, a1.to_ext_str = some v ∧ LastValue is_to_flag args v) ∨
      (¬ Given is_to_flag args ∧ a1.to_ext_str = a.to_ext_str) := by
  refine parse_arguments_value_slot is_to_flag Args.to_ext_str to_flag_value ?_ ?_ args a a1 h
  · intro f v a hv
    unfold set_value
    cases ht : is_to_flag f with
    | true => simp [to_flag_not_path f ht, to_flag_not_from f ht]
    | false =>
      simp only [is_value_flag, ht, Bool.or_false, Bool.or_eq_true] at hv
      rcases hv with hv | hv
      · simp [hv]
      · simp [hv, from_flag_not_path f hv]
  · intro f a
    unfold set_switch
    split <;> rfl

theorem yes_slot (args : List CStr) (a a1 : Args) (h : parse_arguments args a = .ok a1) :
    a1.skip_confirmation = true ↔ a.skip_confirmation = true ∨ Present is_yes_flag args := by
  refine parse_arguments_switch_slot is_yes_flag Args.skip_confirmation ?_ ?_ ?_ args a a1 h
  · intro f hf
    simp [is_switch, hf]
  · intro f v a
    unfold set_value
    split
    · rfl
    · split <;> rfl
  · intro f a _
    unfold set_switch
    cases hy : is_yes_flag f <;> simp

theorem recursive_slot (args : List CStr) (a a1 : Args) (h : parse_arguments args a = .ok a1) :
    a1.recursive = true ↔ a.recursive = true ∨ Present is_recursive_flag args := by
  refine parse_arguments_switch_slot is_recursive_flag Args.recursive ?_ ?_ ?_ args a a1 h
  · intro f hf
    simp [is_switch, hf]
  · intro f v a
    unfold set_value
    split
    · rfl
    · split <;> rfl
  · intro f a hs
    unfold set_switch
    cases hy : is_yes_flag f with
    | true => simp [yes_flag_not_recursive f hy]
    | false =>
      simp only [is_switch, hy, Bool.false_or] at hs
      simp [hs]

theorem validate_arguments_ok_iff (a : Args) (cfg : Config) :
    validate_arguments a = .ok cfg ↔
      a.path_str = some cfg.path_str ∧ a.from_ext_str = some cfg.from_ext_str ∧
      a.to_ext_str = some cfg.to_ext_str ∧ a.skip_confirmation = cfg.skip_confirmation ∧
      a.recursive = cfg.recursive := by
  unfold validate_arguments
  cases hp : a.path_str with
  | none => simp
  | some p =>
    cases hf : a.from_ext_str with
    | none => simp
    | some f =>
      cases ht : a.to_ext_str with
      | none => simp
      | some t =>
        cases cfg
        simp

theorem parse_command_line_of_FlagAt (args pre : List CStr) (tok : CStr) (rest : List CStr)
    (msg : CStr) (h : FlagAt args pre tok rest)
    (hmsg : ∀ a, parse_arguments (tok :: rest) a = .error msg) :
    parse_command_line args = .error msg := by
  obtain ⟨h1, h2⟩ := h
  obtain ⟨a1, h3⟩ := parse_arguments_skips pre h2 (tok :: rest) Args.init
  unfold parse_command_line
  rw [h1, h3, hmsg a1]

/-- C9 (amended): the argument parser on the tokens after the program name. A token is at a flag
position when the tokens before it are complete options. (1) A value flag at a flag position as
last token gives the usage error naming that flag; (2) an unrecognised token at a flag position
gives the text "Error: Unknown argument" with the quoted token and a full stop, cut to the 255
characters of the message buffer: a token of at most 230 characters is named in full, one of at
most 228 with the closing quote and full stop; (3) a help flag at a flag position gives the
usage text with no message line; (4) otherwise a missing path, from or to gives its own error,
the first missing one in that order; every failure ends `main` with status 1, no output on
stdout, no rename and whatever the file system holds; parsing succeeds exactly when none of
(1)-(4) applies, and then yields the last value given for path, from and to, with the two
switches set exactly when their flag occurs at a flag position. -/
theorem argument_parser_failures (args : List CStr) :
    (∀ pre f, FlagAt args pre f [] →
      (is_path_flag f = true → parse_command_line args =
        .error "Error: Flag -p or --path requires an argument.".toList) ∧
      (is_from_flag f = true → parse_command_line args =
        .error "Error: Flag -f or --from requires an argument.".toList) ∧
      (is_to_flag f = true → parse_command_line args =
        .error "Error: Flag -t or --to requires an argument.".toList)) ∧
    (∀ pre tok rest, FlagAt args pre tok rest → is_known_flag tok = false →
      ∃ msg, parse_command_line args = .error msg ∧
        msg = ("Error: Unknown argument \x27".toList ++ tok ++ "\x27.".toList).take 255 ∧
        (tok.length ≤ 230 → ("Error: Unknown argument \x27".toList ++ tok) <+: msg) ∧
        (tok.length ≤ 228 →
          msg = "Error: Unknown argument \x27".toList ++ tok ++ "\x27.".toList)) ∧
    (∀ pre tok rest, FlagAt args pre tok rest → is_help_flag tok = true →
      parse_command_line args = .error []) ∧
    ((∀ msg, usage_output msg =
        (if msg ≠ [] then [msg ++ "\n".toList] else []) ++ usage_output []) ∧
      (usage_output []).head? = some "\nUsage:\n".toList ∧ (usage_output []).length = 12) ∧
    (options_complete args = true →
      (¬ Given is_path_flag args → parse_command_line args =
        .error "Error: Path (-p) must be provided.".toList) ∧
      (Given is_path_flag args → ¬ Given is_from_flag args → parse_command_line args =
        .error "Error: \x27From\x27 extension (-f) must be provided.".toList) ∧
      (Given is_path_flag args → Given is_from_flag args → ¬ Given is_to_flag args →
        parse_command_line args =
          .error "Error: \x27To\x27 extension (-t) must be provided.".toList)) ∧
    (options_complete args = false ↔
      ∃ pre tok rest, FlagAt args pre tok rest ∧
        (is_help_flag tok = true ∨ (is_value_flag tok = true ∧ rest = []) ∨
          is_known_flag tok = false)) ∧
    ((∃ cfg, parse_command_line args = .ok cfg) ↔
      options_complete args = true ∧ Given is_path_flag args ∧ Given is_from_flag args ∧
        Given is_to_flag args) ∧
    (∀ cfg, parse_command_line args = .ok cfg →
      LastValue is_path_flag args cfg.path_str ∧ LastValue is_from_flag args cfg.from_ext_str ∧
      LastValue is_to_flag args cfg.to_ext_str ∧
      (cfg.skip_confirmation = true ↔ Present is_yes_flag args) ∧
      (cfg.recursive = true ↔ Present is_recursive_flag args)) ∧
    ("Error: Path (-p) must be provided.".toList ≠
        "Error: \x27From\x27 extension (-f) must be provided.".toList ∧
      "Error: Path (-p) must be provided.".toList ≠
        "Error: \x27To\x27 extension (-t) must be provided.".toList ∧
      "Error: \x27From\x27 extension (-f) must be provided.".toList ≠
        "Error: \x27To\x27 extension (-t) must be provided.".toList) ∧
    (∀ msg, parse_command_line args = .error msg →
      ∀ (σ : Type) (fs : FS) (rename : σ → CStr → CStr → Bool × σ) (fuel : Nat) (argv0 : CStr)
        (stdin : List Char) (w : σ),
        main fs rename fuel (argv0 :: args) stdin w =
          some { exit_status := 1, stdout := [], stderr := usage_output msg, calls := [],
                 world := w }) := by
  have hlast : ∀ pre f, FlagAt args pre f [] → is_value_flag f = true →
      parse_command_line args = .error (requires_message f) := fun pre f h hv =>
    parse_command_line_of_FlagAt args pre f [] _ h (fun a => parse_arguments_value_last f a hv)
  have hunknown : ∀ pre tok rest, FlagAt args pre tok rest → is_known_flag tok = false →
      parse_command_line args = .error (unknown_argument_message tok) := fun pre tok rest h hu =>
    parse_command_line_of_FlagAt args pre tok rest _ h
      (fun a => parse_arguments_unknown tok rest a hu)
  have hhelp : ∀ pre tok rest, FlagAt args pre tok rest → is_help_flag tok = true →
      parse_command_line args = .error [] := fun pre tok rest h hh =>
    parse_command_line_of_FlagAt args pre tok rest _ h
      (fun a => parse_arguments_help tok rest a hh)
  have hok : ∀ cfg, parse_command_line args = .ok cfg →
      ∃ a1, parse_arguments args Args.init = .ok a1 ∧ validate_arguments a1 = .ok cfg := by
    intro cfg h
    unfold parse_command_line at h
    cases hp : parse_arguments args Args.init with
    | error e => rw [hp] at h; cases h
    | ok a1 => rw [hp] at h; exact ⟨a1, rfl, h⟩
  have hnamed : ∀ pre tok rest, FlagAt args pre tok rest → is_known_flag tok = false →
      ∃ msg, parse_command_line args = .error msg ∧
        msg = ("Error: Unknown argument \x27".toList ++ tok ++ "\x27.".toList).take 255 ∧
        (tok.length ≤ 230 → ("Error: Unknown argument \x27".toList ++ tok) <+: msg) ∧
        (tok.length ≤ 228 →
          msg = "Error: Unknown argument \x27".toList ++ tok ++ "\x27.".toList) := by
    intro pre tok rest h hu
    have h1 : "Error: Unknown argument \x27".toList.length = 25 := by decide
    have h2 : "\x27.".toList.length = 2 := by decide
    refine ⟨unknown_argument_message tok, hunknown pre tok rest h hu, rfl, ?_, ?_⟩
    · intro hlen
      unfold unknown_argument_message snprintf
      rw [List.take_append_eq_append_take,
        List.take_of_length_le (by
          simp only [List.length_append]
          omega)]
      exact List.prefix_append _ _
    · intro hlen
      unfold unknown_argument_message snprintf
      apply List.take_of_length_le
      simp only [List.length_append]
      omega
  refine ⟨?_, hnamed, hhelp, ⟨fun msg => rfl, by decide, by decide⟩, ?_, ?_, ?_, ?_,
    ⟨by decide, by decide, by decide⟩, ?_⟩
  · intro pre f h
    refine ⟨fun hf => ?_, fun hf => ?_, fun hf => ?_⟩
    · rw [hlast pre f h (path_flag_value f hf)]
      simp [requires_message, hf]
    · rw [hlast pre f h (from_flag_value f hf)]
      simp [requires_message, hf, from_flag_not_path f hf]
    · rw [hlast pre f h (to_flag_value f hf)]
      simp [requires_message, to_flag_not_path f hf, to_flag_not_from f hf]
  · intro hc
    obtain ⟨a1, h1⟩ := parse_arguments_ok_of_complete args Args.init hc
    have hP := path_slot args _ _ h1
    have hF := from_slot args _ _ h1
    have hT := to_slot args _ _ h1
    refine ⟨fun hn => ?_, fun hg hn => ?_, fun hg hg2 hn => ?_⟩
    · rcases hP with ⟨v, _, hv⟩ | ⟨_, hv⟩
      · exact absurd (LastValue_Given _ _ _ hv) hn
      · unfold parse_command_line validate_arguments
        rw [h1]
        simp only [hv, Args.init]
    · rcases hP with ⟨v, hv, _⟩ | ⟨hv, _⟩
      · rcases hF with ⟨x, _, hx⟩ | ⟨_, hx⟩
        · exact absurd (LastValue_Given _ _ _ hx) hn
        · unfold parse_command_line validate_arguments
          rw [h1]
          simp only [hv, hx, Args.init]
      · exact absurd hg hv
    · rcases hP with ⟨v, hv, _⟩ | ⟨hv, _⟩
      · rcases hF with ⟨x, hx, _⟩ | ⟨hx, _⟩
        · rcases hT with ⟨y, _, hy⟩ | ⟨_, hy⟩
          · exact absurd (LastValue_Given _ _ _ hy) hn
          · unfold parse_command_line validate_arguments
            rw [h1]
            simp only [hv, hx, hy, Args.init]
        · exact absurd hg2 hx
      · exact absurd hg hv
  · constructor
    · exact offending_token_of_incomplete args
    · rintro ⟨pre, tok, rest, h, hev⟩
      cases hc : options_complete args with
      | false => rfl
      | true =>
        obtain ⟨a1, h1⟩ := parse_arguments_ok_of_complete args Args.init hc
        obtain ⟨a2, h2⟩ := parse_arguments_skips pre h.2 (tok :: rest) Args.init
        rw [← h.1, h1] at h2
        rcases hev with hh | ⟨hv, hr⟩ | hu
        · rw [parse_arguments_help tok rest a2 hh] at h2; cases h2
        · rw [hr, parse_arguments_value_last tok a2 hv] at h2; cases h2
        · rw [parse_arguments_unknown tok rest a2 hu] at h2; cases h2
  · constructor
    · rintro ⟨cfg, h⟩
      obtain ⟨a1, h1, h2⟩ := hok cfg h
      rw [validate_arguments_ok_iff] at h2
      obtain ⟨hp, hf, ht, _, _⟩ := h2
      refine ⟨complete_of_parse_arguments_ok args _ _ h1, ?_, ?_, ?_⟩
      · rcases path_slot args _ _ h1 with ⟨v, _, hv⟩ | ⟨_, hv⟩
        · exact LastValue_Given _ _ _ hv
        · rw [hp] at hv; cases hv
      · rcases from_slot args _ _ h1 with ⟨v, _, hv⟩ | ⟨_, hv⟩
        · exact LastValue_Given _ _ _ hv
        · rw [hf] at hv; cases hv
      · rcases to_slot args _ _ h1 with ⟨v, _, hv⟩ | ⟨_, hv⟩
        · exact LastValue_Given _ _ _ hv
        · rw [ht] at hv; cases hv
    · rintro ⟨hc, hp, hf, ht⟩
      obtain ⟨a1, h1⟩ := parse_arguments_ok_of_complete args Args.init hc
      rcases path_slot args _ _ h1 with ⟨p, hp1, _⟩ | ⟨hp1, _⟩
      · rcases from_slot args _ _ h1 with ⟨f, hf1, _⟩ | ⟨hf1, _⟩
        · rcases to_slot args _ _ h1 with ⟨t, ht1, _⟩ | ⟨ht1, _⟩
          · refine ⟨{ path_str := p, from_ext_str := f, to_ext_str := t,
                      skip_confirmation := a1.skip_confirmation, recursive := a1.recursive }, ?_⟩
            unfold parse_command_line
            rw [h1]
            simp only [validate_arguments_ok_iff, hp1, hf1, ht1, and_self]
          · exact absurd ht ht1
        · exact absurd hf hf1
      · exact absurd hp hp1
  · intro cfg h
    obtain ⟨a1, h1, h2⟩ := hok cfg h
    rw [validate_arguments_ok_iff] at h2
    obtain ⟨hp, hf, ht, hy, hr⟩ := h2
    refine ⟨?_, ?_, ?_, ?_, ?_⟩
    · rcases path_slot args _ _ h1 with ⟨v, h3, hv⟩ | ⟨_, hv⟩
      · rw [hp] at h3; cases h3; exact hv
      · rw [hp] at hv; cases hv
    · rcases from_slot args _ _ h1 with ⟨v, h3, hv⟩ | ⟨_, hv⟩
      · rw [hf] at h3; cases h3; exact hv
      · rw [hf] at hv; cases hv
    · rcases to_slot args _ _ h1 with ⟨v, h3, hv⟩ | ⟨_, hv⟩
      · rw [ht] at h3; cases h3; exact hv
      · rw [ht] at hv; cases hv
    · rw [← hy, yes_slot args _ _ h1]
      simp [Args.init]
    · rw [← hr, recursive_slot args _ _ h1]
      simp [Args.init]
  · intro msg h σ fs rename fuel argv0 stdin w
    unfold main
    simp only [List.drop_succ_cons, List.drop_zero, h]

theorem argument_parser_failures_witness :
    (∃ msg,
      parse_command_line ["-p".toList, "d".toList, "-y".toList, "--bogus".toList, "-f".toList] =
        .error msg ∧
      msg = ("Error: Unknown argument \x27".toList ++ "--bogus".toList ++ "\x27.".toList).take
        255 ∧
      ("--bogus".toList.length ≤ 230 →
        ("Error: Unknown argument \x27".toList ++ "--bogus".toList) <+: msg) ∧
      ("--bogus".toList.length ≤ 228 →
        msg = "Error: Unknown argument \x27".toList ++ "--bogus".toList ++ "\x27.".toList)) ∧
    parse_command_line ["-p".toList, "-h".toList, "-t".toList] =
      .error "Error: Flag -t or --to requires an argument.".toList :=
  ⟨(argument_parser_failures
      ["-p".toList, "d".toList, "-y".toList, "--bogus".toList, "-f".toList]).2.1
      ["-p".toList, "d".toList, "-y".toList] "--bogus".toList ["-f".toList]
      ⟨by decide, by decide⟩ (by decide),
    ((argument_parser_failures ["-p".toList, "-h".toList, "-t".toList]).1
      ["-p".toList, "-h".toList] "-t".toList ⟨by decide, by decide⟩).2.2 (by decide)⟩

theorem unknown_argument_message_long (n : Nat) (h : 230 ≤ n) :
    unknown_argument_message (List.replicate n 'x') =
      "Error: Unknown argument \x27".toList ++ List.replicate 230 'x' := by
  have h1 : "Error: Unknown argument \x27".toList.length = 25 := by decide
  unfold unknown_argument_message snprintf
  rw [List.append_assoc, List.take_append_eq_append_take, List.take_of_length_le (by omega),
    h1, List.take_append_eq_append_take, List.take_replicate, List.length_replicate]
  have h2 : min (256 - 1 - 25) n = 230 := by omega
  have h3 : 256 - 1 - 25 - n = 0 := by omega
  rw [h2, h3]
  simp

/-- C9, as stated, fails: the unknown token of 300 letters "x" stands at a flag position, and
the error is the 255-character text that the token of 231 letters "x" gives as well; it does not
hold the token, so it does not name it. -/
theorem long_unknown_token_is_cut :
    is_known_flag (List.replicate 300 'x') = false ∧
    FlagAt [List.replicate 300 'x'] [] (List.replicate 300 'x') [] ∧
    ∃ msg, parse_command_line [List.replicate 300 'x'] = .error msg ∧
      msg = "Error: Unknown argument \x27".toList ++ List.replicate 230 'x' ∧
      msg.length = 255 ∧ ¬ (List.replicate 300 'x' <:+: msg) ∧
      parse_command_line [List.replicate 231 'x'] = .error msg ∧
      List.replicate 231 'x' ≠ List.replicate 300 'x' := by
  have hk : ∀ n, is_known_flag (List.replicate (n + 1) 'x') = false := by
    intro n
    simp +decide [is_known_flag, is_help_flag, is_value_flag, is_path_flag, is_from_flag,
      is_to_flag, is_switch, is_yes_flag, is_recursive_flag, List.replicate_succ]
  have hp : ∀ n, parse_command_line [List.replicate (n + 1) 'x'] =
      .error (unknown_argument_message (List.replicate (n + 1) 'x')) := fun n =>
    parse_command_line_of_FlagAt _ [] _ [] _ ⟨rfl, rfl⟩
      (fun a => parse_arguments_unknown _ [] a (hk n))
  have hlen : ("Error: Unknown argument \x27".toList ++ List.replicate 230 'x').length = 255 := by
    rw [List.length_append, List.length_replicate]
    decide
  refine ⟨hk 299, ⟨rfl, rfl⟩, _, (hp 299).trans (by rw [unknown_argument_message_long 300
    (by omega)]), rfl, hlen, ?_, (hp 230).trans (by rw [unknown_argument_message_long 231
    (by omega)]), ?_⟩
  · intro hin
    have := hin.length_le
    rw [hlen, List.length_replicate] at this
    omega
  · intro h
    have := congrArg List.length h
    rw [List.length_replicate, List.length_replicate] at this
    omega

/-! ## The directory walk -/

/-- A subdirectory that `opendir` cannot read hides its files: in `locked_fs` the regular file
"r/sub/a.txt" has the extension "txt" and lies in the subdirectory "sub" of "r", yet the
recursive scan of "r" returns an empty list, whatever the depth allowed, because the scan
skips a directory it cannot open. -/
theorem unreadable_subdirectory_hides_match :
    locked_fs.opendir "r".toList = some [".".toList, "..".toList, "sub".toList] ∧
    locked_fs.is_directory (full_path "r".toList "sub".toList) = true ∧
    locked_fs.is_regular_file (full_path (full_path "r".toList "sub".toList) "a.txt".toList) =
      true ∧
    get_extension (full_path (full_path "r".toList "sub".toList) "a.txt".toList) =
      some "txt".toList ∧
    strcasecmp_custom "txt".toList "txt".toList = 0 ∧
    scan_directory_recursive locked_fs "txt".toList 2 "r".toList Scan.start = some Scan.start ∧
    (∀ fuel result,
      scan_directory_recursive locked_fs "txt".toList fuel "r".toList Scan.start = some result →
      full_path (full_path "r".toList "sub".toList) "a.txt".toList ∉ result.files_to_rename) := by
  refine ⟨by decide, by decide, by decide, by decide, by decide, by decide, ?_⟩
  intro fuel result h
  have hres : result = Scan.start := by
    rcases fuel with _ | _ | k
    · have h0 : scan_directory_recursive locked_fs "txt".toList 0 "r".toList Scan.start =
          none := rfl
      rw [h0] at h
      cases h
    · have h1 : scan_directory_recursive locked_fs "txt".toList 1 "r".toList Scan.start =
          none := by decide
      rw [h1] at h
      cases h
    · have h2 : scan_directory_recursive locked_fs "txt".toList (k + 2) "r".toList Scan.start =
          some Scan.start := rfl
      rw [h2] at h
      exact (Option.some.inj h).symm
  rw [hres]
  decide

end FileRenamer
